import Mathlib

/-!
# Verification of the RssFeedToTelegram pipeline (src/frlbot.py)

A shallow embedding of the bot's core pipeline:

* string normalization helpers (`remove_html`, `remove_links`, strip/lower),
* the `NewsFromFeed` article constructor (summary cleaning, checksum),
* `extract_feed_content` / `create_article` / `parse_news` (field-candidate
  fallback and date-descending aggregation),
* the delivery loop of `main` (dedup, staleness/future filters, error budget,
  per-run delivery bound, administrative alert),
* an executable MD5 so the link checksum is the real content hash.

Timestamps are embedded as `Int` seconds; the Python `timedelta(days=30)`
bound becomes the constant `2592000`.  The Telegram sink, whose send may
throw, is a parameter `sink : Article → SendResult`; `dateutil.parser.parse`
is a parameter `pd : String → Option Int` (external collaborators).  The
embedding models the normal (non dry-run) mode.
-/

/-- Python `str.isspace` members relevant to `strip()` (ASCII whitespace). -/
def pyIsSpace (c : Char) : Bool :=
  c == ' ' || c == '\t' || c == '\n' || c == '\r' || c == '\x0b' || c == '\x0c'

/-- Python `str.strip()` on a char list: drop whitespace from both ends. -/
def stripChars (l : List Char) : List Char :=
  ((l.dropWhile pyIsSpace).reverse.dropWhile pyIsSpace).reverse

/-- Python `str.strip()`. -/
def pyStrip (s : String) : String :=
  ⟨stripChars s.data⟩

/-- ASCII lower-casing of one character (Python `str.lower` on ASCII data). -/
def asciiLower (c : Char) : Char :=
  if 'A' ≤ c ∧ c ≤ 'Z' then Char.ofNat (c.toNat + 32) else c

/-- Python `str.lower()` (ASCII). -/
def pyLower (s : String) : String :=
  ⟨s.data.map asciiLower⟩

/-- Does `p` occur at the very start of `s`? -/
def beginsWith : List Char → List Char → Bool
  | [], _ => true
  | _ :: _, [] => false
  | p :: ps, c :: cs => p == c && beginsWith ps cs

/-- Does the pattern `p` occur anywhere inside `s`? -/
def hasSub (p : List Char) : List Char → Bool
  | [] => beginsWith p []
  | c :: cs => beginsWith p (c :: cs) || hasSub p cs

/-- Substring containment on strings (Python `in`). -/
def strHasSub (p s : String) : Bool :=
  hasSub p.data s.data

/-- One normalized article, as built by `NewsFromFeed.__init__`
(src/frlbot.py lines 149-178).  `link` holds the markdown link string the
constructor assembles; `date` is the parsed timestamp in seconds. -/
structure Article where
  title : String
  date : Int
  author : String
  summary : String
  link : String
  checksum : String
deriving Repr, DecidableEq

/-- Outcome of handing one formatted message to the Telegram sink: either the
send returns, or it raises an exception carrying message text `msg`. -/
inductive SendResult where
  | ok : SendResult
  | failed (msg : String) : SendResult
deriving Repr, DecidableEq

/-- Mutable state of one `main` run: the persisted `news(date, checksum)`
rows, the `news_cnt`, `exception_cnt` and `exception_message` locals. -/
structure RunState where
  store : List (Int × String)
  newsCnt : Nat
  excCnt : Nat
  excMsg : String
deriving Repr, DecidableEq

/-- `SELECT * FROM news WHERE checksum=...` returned a row
(src/frlbot.py line 413). -/
def storeHas (store : List (Int × String)) (c : String) : Bool :=
  store.any (fun r => r.2 == c)

/-- The recognized non-retryable failure class: the exception message
contains `can't parse entities:` (src/frlbot.py line 448). -/
def isFormatErr (msg : String) : Bool :=
  strHasSub "can't parse entities:" msg

/-- `timedelta(days=30)` in seconds. -/
def thirtyDays : Int := 2592000

/-- The loop body of `main` for one article (src/frlbot.py lines 411-456),
before the two break checks: dedup skip, staleness skip, future-date skip,
otherwise attempt delivery; on success record and count, on a format-class
failure record without counting, on any other failure count the error.
Returns the new state and the article if it was delivered. -/
def processArticle (now : Int) (sink : Article → SendResult) (st : RunState)
    (a : Article) : RunState × Option Article :=
  if storeHas st.store a.checksum then
    (st, none)
  else if now - a.date > thirtyDays then
    (st, none)
  else if a.date > now then
    (st, none)
  else
    match sink a with
    | SendResult.ok =>
        ({ st with store := st.store ++ [(a.date, a.checksum)],
                   newsCnt := st.newsCnt + 1 }, some a)
    | SendResult.failed m =>
        if isFormatErr m then
          ({ st with store := st.store ++ [(a.date, a.checksum)],
                     excMsg := m }, none)
        else
          ({ st with excCnt := st.excCnt + 1, excMsg := m }, none)

/-- Text of the administrative alert (src/frlbot.py line 461). -/
def alertText (m : String) : String :=
  "Too many errors, skipping this execution. Last error: `" ++ m ++ "`"

/-- Result of one run: final state, the delivered articles in order, the
administrative alerts sent, and the articles left unprocessed by a break. -/
structure RunResult where
  state : RunState
  delivered : List Article
  alerts : List String
  remaining : List Article
deriving Repr, DecidableEq

/-- The `for single_news in parse_news(...)` loop of `main`
(src/frlbot.py lines 411-465): process each article, then stop with one
alert when `exception_cnt > 3`, or stop silently when
`news_cnt >= max_news`. -/
def runLoop (now : Int) (maxNews : Int) (sink : Article → SendResult) :
    RunState → List Article → RunResult
  | st, [] => ⟨st, [], [], []⟩
  | st, a :: rest =>
    let p := processArticle now sink st a
    let dl := p.2.toList
    if p.1.excCnt > 3 then
      ⟨p.1, dl, [alertText p.1.excMsg], rest⟩
    else if (p.1.newsCnt : Int) ≥ maxNews then
      ⟨p.1, dl, [], rest⟩
    else
      let r := runLoop now maxNews sink p.1 rest
      ⟨r.state, dl ++ r.delivered, r.alerts, r.remaining⟩

/-- A whole `main` run starting from the persisted store (locals zeroed as
at src/frlbot.py lines 396-409). -/
def runMain (now maxNews : Int) (sink : Article → SendResult)
    (store : List (Int × String)) (articles : List Article) : RunResult :=
  runLoop now maxNews sink ⟨store, 0, 0, ""⟩ articles

/-! ## MD5 (`hashlib.md5(...).hexdigest()`), executable over `Nat` words -/

/-- Reduce modulo `2^32`. -/
def m32 (n : Nat) : Nat := n % 4294967296

/-- 32-bit addition. -/
def add32 (a b : Nat) : Nat := m32 (a + b)

/-- 32-bit bitwise complement. -/
def not32 (a : Nat) : Nat := Nat.xor a 4294967295

/-- 32-bit left rotation by `s` (0 < s < 32 in the MD5 tables). -/
def rotl32 (x s : Nat) : Nat := m32 ((x <<< s) + (x >>> (32 - s)))

/-- The 64 MD5 sine-derived constants. -/
def md5K : List Nat :=
  [0xd76aa478, 0xe8c7b756, 0x242070db, 0xc1bdceee,
   0xf57c0faf, 0x4787c62a, 0xa8304613, 0xfd469501,
   0x698098d8, 0x8b44f7af, 0xffff5bb1, 0x895cd7be,
   0x6b901122, 0xfd987193, 0xa679438e, 0x49b40821,
   0xf61e2562, 0xc040b340, 0x265e5a51, 0xe9b6c7aa,
   0xd62f105d, 0x02441453, 0xd8a1e681, 0xe7d3fbc8,
   0x21e1cde6, 0xc33707d6, 0xf4d50d87, 0x455a14ed,
   0xa9e3e905, 0xfcefa3f8, 0x676f02d9, 0x8d2a4c8a,
   0xfffa3942, 0x8771f681, 0x6d9d6122, 0xfde5380c,
   0xa4beea44, 0x4bdecfa9, 0xf6bb4b60, 0xbebfbc70,
   0x289b7ec6, 0xeaa127fa, 0xd4ef3085, 0x04881d05,
   0xd9d4d039, 0xe6db99e5, 0x1fa27cf8, 0xc4ac5665,
   0xf4292244, 0x432aff97, 0xab9423a7, 0xfc93a039,
   0x655b59c3, 0x8f0ccc92, 0xffeff47d, 0x85845dd1,
   0x6fa87e4f, 0xfe2ce6e0, 0xa3014314, 0x4e0811a1,
   0xf7537e82, 0xbd3af235, 0x2ad7d2bb, 0xeb86d391]

/-- The 64 MD5 per-round left-rotation amounts. -/
def md5S : List Nat :=
  [7, 12, 17, 22, 7, 12, 17, 22, 7, 12, 17, 22, 7, 12, 17, 22,
   5,  9, 14, 20, 5,  9, 14, 20, 5,  9, 14, 20, 5,  9, 14, 20,
   4, 11, 16, 23, 4, 11, 16, 23, 4, 11, 16, 23, 4, 11, 16, 23,
   6, 10, 15, 21, 6, 10, 15, 21, 6, 10, 15, 21, 6, 10, 15, 21]

/-- The MD5 round function for step `i`. -/
def md5F (i b c d : Nat) : Nat :=
  if i < 16 then Nat.lor (Nat.land b c) (Nat.land (not32 b) d)
  else if i < 32 then Nat.lor (Nat.land d b) (Nat.land (not32 d) c)
  else if i < 48 then Nat.xor b (Nat.xor c d)
  else Nat.xor c (Nat.lor b (not32 d))

/-- The message-word index used at step `i`. -/
def md5G (i : Nat) : Nat :=
  if i < 16 then i
  else if i < 32 then (5 * i + 1) % 16
  else if i < 48 then (3 * i + 5) % 16
  else (7 * i) % 16

/-- One of the 64 steps of an MD5 block, acting on the register tuple. -/
def md5Step (msg : List Nat) (st : Nat × Nat × Nat × Nat) (i : Nat) :
    Nat × Nat × Nat × Nat :=
  let (a, b, c, d) := st
  let t := add32 (add32 (add32 a (md5F i b c d)) (md5K.getD i 0))
                 (msg.getD (md5G i) 0)
  (d, add32 b (rotl32 t (md5S.getD i 0)), b, c)

/-- Process one 16-word block, updating the running digest. -/
def md5Block (h : Nat × Nat × Nat × Nat) (msg : List Nat) :
    Nat × Nat × Nat × Nat :=
  let (a, b, c, d) := (List.range 64).foldl (md5Step msg) h
  (add32 h.1 a, add32 h.2.1 b, add32 h.2.2.1 c, add32 h.2.2.2 d)

/-- Little-endian packing of bytes into 32-bit words. -/
def bytesToWords : List Nat → List Nat
  | b0 :: b1 :: b2 :: b3 :: rest =>
      (b0 + (b1 <<< 8) + (b2 <<< 16) + (b3 <<< 24)) :: bytesToWords rest
  | _ => []

/-- Split a word list into chunks of 16 (the MD5 blocks). -/
def chunk16 : List Nat → List (List Nat)
  | w0 :: w1 :: w2 :: w3 :: w4 :: w5 :: w6 :: w7 ::
    w8 :: w9 :: w10 :: w11 :: w12 :: w13 :: w14 :: w15 :: rest =>
      [w0, w1, w2, w3, w4, w5, w6, w7,
       w8, w9, w10, w11, w12, w13, w14, w15] :: chunk16 rest
  | _ => []

/-- MD5 padding: append `0x80`, zeros to 56 mod 64 bytes, then the 64-bit
little-endian bit length. -/
def md5Pad (msg : List Nat) : List Nat :=
  let len := msg.length
  let zeros := List.replicate ((119 - len % 64) % 64) 0
  let bitLen := 8 * len
  msg ++ [0x80] ++ zeros ++
    [bitLen % 256, (bitLen >>> 8) % 256, (bitLen >>> 16) % 256,
     (bitLen >>> 24) % 256, (bitLen >>> 32) % 256, (bitLen >>> 40) % 256,
     (bitLen >>> 48) % 256, (bitLen >>> 56) % 256]

/-- MD5 of a byte sequence: the four final 32-bit registers. -/
def md5Digest (msg : List Nat) : Nat × Nat × Nat × Nat :=
  (chunk16 (bytesToWords (md5Pad msg))).foldl md5Block
    (0x67452301, 0xefcdab89, 0x98badcfe, 0x10325476)

/-- Lowercase hex digit. -/
def hexDigit (n : Nat) : Char :=
  if n < 10 then Char.ofNat (48 + n) else Char.ofNat (87 + n)

/-- Two lowercase hex digits of a byte. -/
def byteHex (b : Nat) : List Char :=
  [hexDigit (b / 16 % 16), hexDigit (b % 16)]

/-- Hex of one 32-bit word, little-endian byte order (as `hexdigest`). -/
def wordHexLE (w : Nat) : List Char :=
  byteHex (w % 256) ++ byteHex (w >>> 8 % 256) ++
  byteHex (w >>> 16 % 256) ++ byteHex (w >>> 24 % 256)

/-- UTF-8 encoding of one character (`str.encode('utf-8')`). -/
def utf8Bytes (c : Char) : List Nat :=
  let n := c.toNat
  if n < 0x80 then [n]
  else if n < 0x800 then
    [0xC0 + (n >>> 6), 0x80 + (n % 64)]
  else if n < 0x10000 then
    [0xE0 + (n >>> 12), 0x80 + ((n >>> 6) % 64), 0x80 + (n % 64)]
  else
    [0xF0 + (n >>> 18), 0x80 + ((n >>> 12) % 64), 0x80 + ((n >>> 6) % 64),
     0x80 + (n % 64)]

/-- `hashlib.md5(s.encode('utf-8')).hexdigest()`. -/
def md5Hex (s : String) : String :=
  let (a, b, c, d) := md5Digest (s.data.flatMap utf8Bytes)
  ⟨wordHexLE a ++ wordHexLE b ++ wordHexLE c ++ wordHexLE d⟩

set_option maxRecDepth 10000 in
theorem md5Hex_empty : md5Hex "" = "d41d8cd98f00b204e9800998ecf8427e" := by
  decide

set_option maxRecDepth 10000 in
theorem md5Hex_abc : md5Hex "abc" = "900150983cd24fb0d6963f7d28e17f72" := by
  decide

/-! ## The regex cleaners `remove_html` and `remove_links` -/

/-- Generic model of `re.sub(pat, "", s)`: scan left to right; where the
matcher reports a match of length `n`, drop those characters and continue
after them; otherwise keep the character.  `fuel` bounds the recursion and
is complete whenever it is at least the list length (every match here
consumes at least one character). -/
def subScan (matchAt : List Char → Option Nat) : Nat → List Char → List Char
  | 0, l => l
  | _ + 1, [] => []
  | fuel + 1, c :: cs =>
    match matchAt (c :: cs) with
    | some n => subScan matchAt fuel ((c :: cs).drop n)
    | none => c :: subScan matchAt fuel cs

/-- `[a-z0-9]` (the HTML-entity name class). -/
def isLowerDigit (c : Char) : Bool :=
  ('a' ≤ c && c ≤ 'z') || ('0' ≤ c && c ≤ '9')

/-- `[0-9]`. -/
def isDigitCh (c : Char) : Bool := '0' ≤ c && c ≤ '9'

/-- `[0-9a-f]`. -/
def isHexLower (c : Char) : Bool :=
  ('0' ≤ c && c ≤ '9') || ('a' ≤ c && c ≤ 'f')

/-- Scan the characters after `<` for the closing `>`; `.` in the pattern
`<.*?>` does not match a newline, so a newline aborts the match.  Returns
how many characters the `.*?>` part consumes. -/
def tagScan : List Char → Option Nat
  | [] => none
  | c :: cs =>
    if c == '>' then some 1
    else if c == '\n' then none
    else (tagScan cs).map (· + 1)

/-- Match of `<.*?>|&([a-z0-9]+|#[0-9]{1,6}|#x[0-9a-f]{1,6});` at the head
of the list, returning the match length. -/
def htmlMatchAt (l : List Char) : Option Nat :=
  match l with
  | '<' :: rest => (tagScan rest).map (· + 1)
  | '&' :: '#' :: 'x' :: rest =>
    let hs := (rest.takeWhile isHexLower).length
    if 1 ≤ hs && hs ≤ 6 && rest.get? hs == some ';' then some (hs + 4)
    else none
  | '&' :: '#' :: rest =>
    let ds := (rest.takeWhile isDigitCh).length
    if 1 ≤ ds && ds ≤ 6 && rest.get? ds == some ';' then some (ds + 3)
    else none
  | '&' :: rest =>
    let rs := (rest.takeWhile isLowerDigit).length
    if 1 ≤ rs && rest.get? rs == some ';' then some (rs + 2)
    else none
  | _ => none

/-- `remove_html` (src/frlbot.py lines 127-130): strip, then delete every
HTML tag or entity match. -/
def remove_html (s : String) : String :=
  let l := stripChars s.data
  ⟨subScan htmlMatchAt l.length l⟩

/-- `[-a-zA-Z0-9@:%._\+~#=]` (the pre-dot URL character class). -/
def isUrlA (c : Char) : Bool :=
  c == '-' || c.isAlphanum || c == '@' || c == ':' || c == '%' || c == '.' ||
  c == '_' || c == '+' || c == '~' || c == '#' || c == '='

/-- `[a-zA-Z0-9()]` (the post-dot URL character class). -/
def isUrlB (c : Char) : Bool :=
  c.isAlphanum || c == '(' || c == ')'

/-- `[-a-zA-Z0-9()@:%_\+.~#?&//=]` (the URL tail class). -/
def isUrlTail (c : Char) : Bool :=
  c == '-' || c.isAlphanum || c == '(' || c == ')' || c == '@' || c == ':' ||
  c == '%' || c == '_' || c == '+' || c == '.' || c == '~' || c == '#' ||
  c == '?' || c == '&' || c == '/' || c == '='

/-- Regex word character, for `\b`. -/
def isWordCh (c : Char) : Bool := c.isAlphanum || c == '_'

/-- Try `f n, f (n-1), ..., f 1` and return the first success (descending
backtracking over a greedy bounded repetition). -/
def findDesc : Nat → (Nat → Option Nat) → Option Nat
  | 0, _ => none
  | k + 1, f =>
    match f (k + 1) with
    | some r => some r
    | none => findDesc k f

/-- Match of `[-a-zA-Z0-9@:%._\+~#=]{1,256}\.[a-zA-Z0-9()]{1,6}\b(?:tail*)`
starting at the head of `l2`: greedy pre-dot run (backtracking to place the
literal dot), greedy 1-6 post-dot run subject to the word boundary, then
the maximal tail.  Returns the matched length. -/
def urlCoreMatch (l2 : List Char) : Option Nat :=
  let maxA := min 256 (l2.takeWhile isUrlA).length
  findDesc maxA (fun aLen =>
    if l2.get? aLen == some '.' then
      let l3 := l2.drop (aLen + 1)
      let bMax := min 6 (l3.takeWhile isUrlB).length
      findDesc bMax (fun bLen =>
        let prevWord := isWordCh (l3.getD (bLen - 1) ' ')
        let nextWord :=
          match l3.get? bLen with
          | some c => isWordCh c
          | none => false
        if prevWord != nextWord then
          some (aLen + 1 + bLen + ((l3.drop bLen).takeWhile isUrlTail).length)
        else none)
    else none)

/-- `(?:www\.)?` then the URL core, preferring the `www.` branch. -/
def urlAfterScheme (l1 : List Char) (pfx : Nat) : Option Nat :=
  if beginsWith "www.".data l1 then
    match urlCoreMatch (l1.drop 4) with
    | some m => some (pfx + 4 + m)
    | none => (urlCoreMatch l1).map (pfx + ·)
  else (urlCoreMatch l1).map (pfx + ·)

/-- Match of the full link regex of `remove_links` at the head of `l`:
optional `https://`/`http://` scheme (greedy), optional `www.`, then the
URL core. -/
def urlMatchAt (l : List Char) : Option Nat :=
  if beginsWith "https://".data l then
    match urlAfterScheme (l.drop 8) 8 with
    | some m => some m
    | none => urlAfterScheme l 0
  else if beginsWith "http://".data l then
    match urlAfterScheme (l.drop 7) 7 with
    | some m => some m
    | none => urlAfterScheme l 0
  else urlAfterScheme l 0

/-- `remove_links` (src/frlbot.py lines 133-137): strip, then delete every
URL-shaped match. -/
def remove_links (s : String) : String :=
  let l := stripChars s.data
  ⟨subScan urlMatchAt l.length l⟩

/-- `extract_domain` (src/frlbot.py lines 184-190): an anchored
`https?://(?:www\.)?([^/]+)` match returning the captured group, else the
literal `anonymous`. -/
def extract_domain (url : String) : String :=
  let l := url.data
  let afterScheme : Option (List Char) :=
    if beginsWith "https://".data l then some (l.drop 8)
    else if beginsWith "http://".data l then some (l.drop 7)
    else none
  match afterScheme with
  | none => "anonymous"
  | some l1 =>
    let l2 :=
      if beginsWith "www.".data l1 && ((l1.drop 4).takeWhile (· != '/')) != []
      then l1.drop 4 else l1
    let cap := l2.takeWhile (· != '/')
    if cap == [] then "anonymous" else ⟨cap⟩

/-! ## `NewsFromFeed.__init__`: summary cleaning and the link checksum -/

/-- Case-insensitive match of the literal `read more` at the head of the
list (the `re.escape("read more")` pattern with `re.IGNORECASE`). -/
def readMoreAt (l : List Char) : Option Nat :=
  if (l.take 9).map asciiLower == "read more".data then some 9 else none

/-- `re.sub(read more, "", s)` case-insensitively (src/frlbot.py line 160). -/
def removeReadMore (l : List Char) : List Char :=
  subScan readMoreAt l.length l

/-- `str.replace('\n', ' ')`. -/
def replaceNl (l : List Char) : List Char :=
  l.map (fun c => if c == '\n' then ' ' else c)

/-- One pass of `str.replace('  ', ' ')`: left-to-right, non-overlapping. -/
def replaceDbl : List Char → List Char
  | ' ' :: ' ' :: rest => ' ' :: replaceDbl rest
  | c :: rest => c :: replaceDbl rest
  | [] => []

/-- Is `'  '` (two spaces) a substring? -/
def hasDbl : List Char → Bool
  | ' ' :: ' ' :: _ => true
  | _ :: rest => hasDbl rest
  | [] => false

/-- The `while '  ' in cut_text` loop (src/frlbot.py lines 166-167), with
fuel; `collapseSpaces` supplies enough fuel for any input. -/
def collapseFuel : Nat → List Char → List Char
  | 0, l => l
  | fuel + 1, l => if hasDbl l then collapseFuel fuel (replaceDbl l) else l

/-- Collapse runs of blanks: the `while` loop run to completion. -/
def collapseSpaces (l : List Char) : List Char :=
  collapseFuel l.length l

/-- `NewsFromFeed.__init__` (src/frlbot.py lines 149-178), with the
timestamp already parsed to `dateVal`: strip title/author, clean the
summary (conditional read-more removal, strip, newline replacement, blank
collapsing, 300-character cut), build the markdown link from the stripped
lower-cased URL and take its MD5 as the checksum. -/
def mkNews (title : String) (dateVal : Int) (author summary link : String) :
    Article :=
  let t := pyStrip title
  let noReadMore : List Char :=
    if summary.data.length > 10 then removeReadMore (stripChars summary.data)
    else summary.data
  let cut1 := collapseSpaces (replaceNl (stripChars noReadMore))
  let cut2 :=
    if noReadMore.length > 300 then cut1.take 300 ++ " ...".data else cut1
  let cleanUrl := pyLower (pyStrip link)
  { title := t, date := dateVal, author := pyStrip author,
    summary := ⟨cut2⟩,
    link := "[" ++ t ++ "](" ++ cleanUrl ++ ")",
    checksum := md5Hex cleanUrl }

/-- The checksum a link receives, for reasoning about dedup keys:
`hashlib.md5(inputLink.strip().lower().encode('utf-8')).hexdigest()`
(src/frlbot.py lines 173-177). -/
def linkChecksum (link : String) : String :=
  md5Hex (pyLower (pyStrip link))

/-! ## Feed entries, `extract_feed_content`, `create_article`, `parse_news` -/

/-- One raw feed entry: a finite map from field names to string values
(the `feedparser` entry dict). -/
structure Entry where
  fields : List (String × String)
deriving Repr, DecidableEq

/-- `entry.get(key)`: `none` when the key is absent. -/
def Entry.get? (e : Entry) (k : String) : Option String :=
  (e.fields.find? (fun p => p.1 == k)).map (·.2)

/-- Python `a or b` on an optional string: `b` when `a` is `None` or
empty (falsy). -/
def pyOr (a b : Option String) : Option String :=
  match a with
  | some s => if s.data == [] then b else some s
  | none => b

/-- `extract_feed_content` (src/frlbot.py lines 208-223): read the field,
clean HTML then links, and keep the result only when its length exceeds
10 characters. -/
def extract_feed_content (e : Entry) (key : String) : Option String :=
  match e.get? key with
  | some c =>
    if c.data != [] then
      let cleaned := remove_links (remove_html c)
      if cleaned.data.length > 10 then some cleaned else none
    else none
  | none => none

/-- `create_article` (src/frlbot.py lines 226-262) with the external date
parser `pd` (`dateutil.parser.parse`; `none` models a parse exception).
The first debug line already reads `entry['link']`, so a missing link key
raises `KeyError` and drops the entry; a missing `title` key does the
same at line 237.  The date falls back from the tuple's key to
`published` then `updated`, with Python falsiness on empty strings. -/
def create_article (pd : String → Option Int) (e : Entry)
    (ck ak dk : String) : Option Article :=
  match e.get? "link" with
  | none => none
  | some link =>
    match extract_feed_content e ck with
    | none => none
    | some content =>
      let author :=
        match e.get? ak with
        | some s => if s.data == [] then extract_domain link else s
        | none => extract_domain link
      match e.get? "title" with
      | none => none
      | some title0 =>
        let title := if title0.data.length > 2 then title0 else "No title"
        match pyOr (e.get? dk) (pyOr (e.get? "published") (e.get? "updated")) with
        | none => none
        | some ds =>
          if ds.data == [] then none
          else
            match pd ds with
            | none => none
            | some dv => some (mkNews title dv author content link)

/-- The three field-candidate tuples of `parse_news`
(src/frlbot.py lines 278-282), in priority order. -/
def fieldTuples : List (String × String × String) :=
  [("description", "dc:creator", "pubDate"),
   ("summary", "author", "published"),
   ("content", "author", "published")]

/-- The inner loop of `parse_news` for one entry: try the three tuples in
order and keep the first article built (src/frlbot.py lines 277-291). -/
def processEntry (pd : String → Option Int) (e : Entry) : Option Article :=
  match create_article pd e "description" "dc:creator" "pubDate" with
  | some a => some a
  | none =>
    match create_article pd e "summary" "author" "published" with
    | some a => some a
    | none => create_article pd e "content" "author" "published"

/-- Date-descending comparator of the final `sorted(..., reverse=True)`. -/
def dateGe (a b : Article) : Bool := decide (b.date ≤ a.date)

/-- `parse_news` over the already-fetched feeds (src/frlbot.py
lines 265-294): entries that no tuple turns into an article are dropped,
the per-feed results are concatenated in fetch order, and the combined
list is stably sorted by date descending (Python's `sorted` is stable). -/
def parse_news (pd : String → Option Int) (feeds : List (List Entry)) :
    List Article :=
  let newsList := (feeds.map (fun f => f.filterMap (processEntry pd))).flatten
  newsList.mergeSort dateGe

/-! ## Concrete fixtures used by the evaluated instances -/

/-- A fixed external date parser for the concrete examples: `D1`, `D2`,
`D3` parse to the timestamps 3 > 2 > 1, `DT` to 100. -/
def pdFix : String → Option Int := fun s =>
  if s == "D1" then some 3
  else if s == "D2" then some 2
  else if s == "D3" then some 1
  else if s == "DT" then some 100
  else none

/-- Entry with `description`/`pubDate` material, date `D1`. -/
def entryD1 : Entry :=
  ⟨[("title", "First title"), ("link", "http://a.example/one"),
    ("description", "Content one is long enough to pass the filter"),
    ("pubDate", "D1")]⟩

/-- Entry with `description`/`pubDate` material, date `D2`. -/
def entryD2 : Entry :=
  ⟨[("title", "Second title"), ("link", "http://b.example/two"),
    ("description", "Content two is long enough to pass the filter"),
    ("pubDate", "D2")]⟩

/-- Entry with `description`/`pubDate` material, date `D3`. -/
def entryD3 : Entry :=
  ⟨[("title", "Third title"), ("link", "http://c.example/three"),
    ("description", "Content three is long enough to pass the filter"),
    ("pubDate", "D3")]⟩

/-- Entry exposing only `summary`/`author`/`published` (no `description`,
`dc:creator` or `pubDate`), as in testable property 7 of the spec. -/
def entryFallback : Entry :=
  ⟨[("title", "Fallback title"), ("link", "http://c.example/f"),
    ("summary", "Summary content long enough to pass the filter"),
    ("author", "Alice"), ("published", "D1")]⟩

/-- Entry with valid content and date but no `title` key at all. -/
def entryNoTitle : Entry :=
  ⟨[("link", "http://c.example/n"),
    ("description", "Content long enough to pass the ten char filter"),
    ("published", "D1")]⟩

/-- Entry with a `title` key that is too short (length 2). -/
def entryShortTitle : Entry :=
  ⟨[("title", "ab"), ("link", "http://c.example/s"),
    ("description", "Content long enough to pass the ten char filter"),
    ("published", "D1")]⟩

/-- Entry whose content hides an HTML tag across a newline: the tag
survives `remove_html` (whose `.` does not match a newline) and becomes a
plain tag once the summary step replaces the newline by a space. -/
def entryTagSummary : Entry :=
  ⟨[("title", "Tag title"), ("link", "http://c.example/t"),
    ("description", "< a\nb > plus more content here yes"),
    ("published", "D1")]⟩

/-- The article `parse_news` builds from `entryD1` (date 3). -/
def artD1 : Article := (processEntry pdFix entryD1).getD ⟨"", 0, "", "", "", ""⟩

/-- The article `parse_news` builds from `entryD2` (date 2). -/
def artD2 : Article := (processEntry pdFix entryD2).getD ⟨"", 0, "", "", "", ""⟩

/-- The article `parse_news` builds from `entryD3` (date 1). -/
def artD3 : Article := (processEntry pdFix entryD3).getD ⟨"", 0, "", "", "", ""⟩

/-! ## Helper lemmas about the delivery loop -/

theorem storeHas_append (s : List (Int × String)) (d : Int) (c' c : String) :
    storeHas (s ++ [(d, c')]) c = (storeHas s c || (c' == c)) := by
  simp [storeHas, List.any_append]

theorem processArticle_skip (now : Int) (sink : Article → SendResult)
    (st : RunState) (a : Article) (h : storeHas st.store a.checksum = true) :
    processArticle now sink st a = (st, none) := by
  simp [processArticle, h]


theorem processArticle_store_mono (now : Int) (sink : Article → SendResult)
    (st : RunState) (a : Article) (c : String)
    (h : storeHas st.store c = true) :
    storeHas (processArticle now sink st a).1.store c = true := by
  unfold processArticle
  repeat' split
  all_goals simp_all [storeHas_append]

theorem processArticle_excCnt_mono (now : Int) (sink : Article → SendResult)
    (st : RunState) (a : Article) :
    st.excCnt ≤ (processArticle now sink st a).1.excCnt := by
  unfold processArticle
  repeat' split
  all_goals simp

theorem processArticle_excCnt_le_succ (now : Int) (sink : Article → SendResult)
    (st : RunState) (a : Article) :
    (processArticle now sink st a).1.excCnt ≤ st.excCnt + 1 := by
  unfold processArticle
  repeat' split
  all_goals simp

theorem processArticle_newsCnt_delivered (now : Int)
    (sink : Article → SendResult) (st : RunState) (a : Article) :
    (processArticle now sink st a).1.newsCnt =
      st.newsCnt + (processArticle now sink st a).2.toList.length := by
  unfold processArticle
  repeat' split
  all_goals simp

theorem processArticle_delivered (now : Int) (sink : Article → SendResult)
    (st st' : RunState) (a x : Article)
    (h : processArticle now sink st a = (st', some x)) :
    x = a ∧ storeHas st.store a.checksum = false ∧
    now - a.date ≤ thirtyDays ∧ a.date ≤ now ∧ sink a = SendResult.ok ∧
    st' = { st with store := st.store ++ [(a.date, a.checksum)],
                    newsCnt := st.newsCnt + 1 } := by
  unfold processArticle at h
  repeat' split at h
  · exact absurd h (by simp)
  · exact absurd h (by simp)
  · exact absurd h (by simp)
  · injection h with hst hx
    injection hx with hxa
    refine ⟨hxa.symm, ?_, by omega, by omega, ?_, hst.symm⟩
    · simp_all
    · simp_all
  · exact absurd h (by simp)
  · exact absurd h (by simp)

theorem runLoop_cons (now maxNews : Int) (sink : Article → SendResult)
    (st : RunState) (a : Article) (rest : List Article) :
    runLoop now maxNews sink st (a :: rest) =
      (let p := processArticle now sink st a
       if p.1.excCnt > 3 then ⟨p.1, p.2.toList, [alertText p.1.excMsg], rest⟩
       else if (p.1.newsCnt : Int) ≥ maxNews then ⟨p.1, p.2.toList, [], rest⟩
       else
         let r := runLoop now maxNews sink p.1 rest
         ⟨r.state, p.2.toList ++ r.delivered, r.alerts, r.remaining⟩) := rfl

theorem processArticle_delivered_store (now : Int)
    (sink : Article → SendResult) (st : RunState) (a x : Article)
    (h : (processArticle now sink st a).2 = some x) :
    storeHas (processArticle now sink st a).1.store x.checksum = true := by
  have hp : processArticle now sink st a =
      ((processArticle now sink st a).1, some x) := by
    rw [← h]
  obtain ⟨hx, -, -, -, -, hst⟩ :=
    processArticle_delivered now sink st _ a x hp
  rw [hst, hx]
  simp [storeHas_append]

theorem runLoop_store_mono (now maxNews : Int) (sink : Article → SendResult)
    (l : List Article) (st : RunState) (c : String)
    (h : storeHas st.store c = true) :
    storeHas (runLoop now maxNews sink st l).state.store c = true := by
  induction l generalizing st with
  | nil => simpa [runLoop] using h
  | cons a rest ih =>
    rw [runLoop_cons]
    simp only []
    have hp := processArticle_store_mono now sink st a c h
    split
    · exact hp
    · split
      · exact hp
      · exact ih _ hp

theorem runLoop_delivered_store (now maxNews : Int)
    (sink : Article → SendResult) (l : List Article) (st : RunState)
    (x : Article) (h : x ∈ (runLoop now maxNews sink st l).delivered) :
    storeHas (runLoop now maxNews sink st l).state.store x.checksum = true := by
  induction l generalizing st with
  | nil => simp [runLoop] at h
  | cons a rest ih =>
    rw [runLoop_cons] at h ⊢
    simp only [] at h ⊢
    by_cases hb : (processArticle now sink st a).1.excCnt > 3
    · rw [if_pos hb] at h ⊢
      have hsome : (processArticle now sink st a).2 = some x := by
        simpa [Option.mem_toList, Option.mem_def] using h
      exact processArticle_delivered_store now sink st a x hsome
    · rw [if_neg hb] at h ⊢
      by_cases hb2 :
          ((processArticle now sink st a).1.newsCnt : Int) ≥ maxNews
      · rw [if_pos hb2] at h ⊢
        have hsome : (processArticle now sink st a).2 = some x := by
          simpa [Option.mem_toList, Option.mem_def] using h
        exact processArticle_delivered_store now sink st a x hsome
      · rw [if_neg hb2] at h ⊢
        rcases List.mem_append.mp h with hmem | hmem
        · have hsome : (processArticle now sink st a).2 = some x := by
            simpa [Option.mem_toList, Option.mem_def] using hmem
          exact runLoop_store_mono now maxNews sink rest _ _
            (processArticle_delivered_store now sink st a x hsome)
        · exact ih _ hmem

theorem runLoop_count_zero (now maxNews : Int) (sink : Article → SendResult)
    (l : List Article) (st : RunState) (c : String)
    (h : storeHas st.store c = true) :
    (runLoop now maxNews sink st l).delivered.countP
      (fun x => x.checksum == c) = 0 := by
  induction l generalizing st with
  | nil => simp [runLoop]
  | cons a rest ih =>
    rw [runLoop_cons]
    simp only []
    have hhead : (processArticle now sink st a).2.toList.countP
        (fun x => x.checksum == c) = 0 := by
      cases hopt : (processArticle now sink st a).2 with
      | none => simp
      | some y =>
        obtain ⟨hya, hdup, -, -, -, -⟩ :=
          processArticle_delivered now sink st _ a y (by rw [← hopt])
        have hne : (y.checksum == c) = false := by
          subst hya
          by_contra hcon
          rw [Bool.not_eq_false, beq_iff_eq] at hcon
          rw [hcon] at hdup
          rw [h] at hdup
          exact Bool.true_eq_false.mp hdup
        simp [List.countP_cons, hne]
    have hmono := processArticle_store_mono now sink st a c h
    by_cases hb : (processArticle now sink st a).1.excCnt > 3
    · rw [if_pos hb]
      exact hhead
    · rw [if_neg hb]
      by_cases hb2 :
          ((processArticle now sink st a).1.newsCnt : Int) ≥ maxNews
      · rw [if_pos hb2]
        exact hhead
      · rw [if_neg hb2]
        simp only [List.countP_append, hhead, ih _ hmono]

theorem runLoop_count_le_one (now maxNews : Int) (sink : Article → SendResult)
    (l : List Article) (st : RunState) (c : String) :
    (runLoop now maxNews sink st l).delivered.countP
      (fun x => x.checksum == c) ≤ 1 := by
  induction l generalizing st with
  | nil => simp [runLoop]
  | cons a rest ih =>
    rw [runLoop_cons]
    simp only []
    cases hopt : (processArticle now sink st a).2 with
    | none =>
      by_cases hb : (processArticle now sink st a).1.excCnt > 3
      · rw [if_pos hb]
        simp [hopt]
      · rw [if_neg hb]
        by_cases hb2 :
            ((processArticle now sink st a).1.newsCnt : Int) ≥ maxNews
        · rw [if_pos hb2]
          simp [hopt]
        · rw [if_neg hb2]
          simpa [hopt] using ih (processArticle now sink st a).1
    | some y =>
      have hstore := processArticle_delivered_store now sink st a y hopt
      by_cases hyc : (y.checksum == c) = true
      · have hc : c = y.checksum := (eq_of_beq hyc).symm
        by_cases hb : (processArticle now sink st a).1.excCnt > 3
        · rw [if_pos hb]
          simp only [hopt, Option.toList_some, List.countP_cons,
            List.countP_nil]
          split <;> simp
        · rw [if_neg hb]
          by_cases hb2 :
              ((processArticle now sink st a).1.newsCnt : Int) ≥ maxNews
          · rw [if_pos hb2]
            simp only [hopt, Option.toList_some, List.countP_cons,
              List.countP_nil]
            split <;> simp
          · rw [if_neg hb2]
            have hz := runLoop_count_zero now maxNews sink rest
              (processArticle now sink st a).1 c (by rw [hc]; exact hstore)
            simp only [hopt, Option.toList_some, List.countP_append,
              List.countP_cons, List.countP_nil, hz]
            split <;> simp
      · have hne : (y.checksum == c) = false := by
          simpa using hyc
        by_cases hb : (processArticle now sink st a).1.excCnt > 3
        · rw [if_pos hb]
          simp [hopt, List.countP_cons, hne]
        · rw [if_neg hb]
          by_cases hb2 :
              ((processArticle now sink st a).1.newsCnt : Int) ≥ maxNews
          · rw [if_pos hb2]
            simp [hopt, List.countP_cons, hne]
          · rw [if_neg hb2]
            simpa [hopt, List.countP_append, List.countP_cons, hne] using
              ih (processArticle now sink st a).1

theorem runLoop_newsCnt_eq (now maxNews : Int) (sink : Article → SendResult)
    (l : List Article) (st : RunState) :
    (runLoop now maxNews sink st l).state.newsCnt =
      st.newsCnt + (runLoop now maxNews sink st l).delivered.length := by
  induction l generalizing st with
  | nil => simp [runLoop]
  | cons a rest ih =>
    rw [runLoop_cons]
    simp only []
    have hp := processArticle_newsCnt_delivered now sink st a
    by_cases hb : (processArticle now sink st a).1.excCnt > 3
    · rw [if_pos hb]
      exact hp
    · rw [if_neg hb]
      by_cases hb2 :
          ((processArticle now sink st a).1.newsCnt : Int) ≥ maxNews
      · rw [if_pos hb2]
        exact hp
      · rw [if_neg hb2]
        simp only [List.length_append, ih (processArticle now sink st a).1, hp]
        omega

theorem runLoop_newsCnt_le (now maxNews : Int) (sink : Article → SendResult)
    (l : List Article) (st : RunState)
    (h : (st.newsCnt : Int) < maxNews) :
    ((runLoop now maxNews sink st l).state.newsCnt : Int) ≤ maxNews := by
  induction l generalizing st with
  | nil =>
    simp only [runLoop]
    omega
  | cons a rest ih =>
    rw [runLoop_cons]
    simp only []
    have hp := processArticle_newsCnt_delivered now sink st a
    have hlen : (processArticle now sink st a).2.toList.length ≤ 1 := by
      cases (processArticle now sink st a).2 <;> simp
    by_cases hb : (processArticle now sink st a).1.excCnt > 3
    · rw [if_pos hb]
      show ((processArticle now sink st a).1.newsCnt : Int) ≤ maxNews
      omega
    · rw [if_neg hb]
      by_cases hb2 :
          ((processArticle now sink st a).1.newsCnt : Int) ≥ maxNews
      · rw [if_pos hb2]
        show ((processArticle now sink st a).1.newsCnt : Int) ≤ maxNews
        omega
      · rw [if_neg hb2]
        exact ih (processArticle now sink st a).1 (by omega)

theorem runLoop_excCnt_mono (now maxNews : Int) (sink : Article → SendResult)
    (l : List Article) (st : RunState) :
    st.excCnt ≤ (runLoop now maxNews sink st l).state.excCnt := by
  induction l generalizing st with
  | nil => simp [runLoop]
  | cons a rest ih =>
    rw [runLoop_cons]
    simp only []
    have hp := processArticle_excCnt_mono now sink st a
    by_cases hb : (processArticle now sink st a).1.excCnt > 3
    · rw [if_pos hb]
      exact hp
    · rw [if_neg hb]
      by_cases hb2 :
          ((processArticle now sink st a).1.newsCnt : Int) ≥ maxNews
      · rw [if_pos hb2]
        exact hp
      · rw [if_neg hb2]
        exact Nat.le_trans hp (ih (processArticle now sink st a).1)

theorem runLoop_excCnt_le_four (now maxNews : Int)
    (sink : Article → SendResult) (l : List Article) (st : RunState)
    (h : st.excCnt ≤ 3) :
    (runLoop now maxNews sink st l).state.excCnt ≤ 4 := by
  induction l generalizing st with
  | nil =>
    simp only [runLoop]
    omega
  | cons a rest ih =>
    rw [runLoop_cons]
    simp only []
    have hp := processArticle_excCnt_le_succ now sink st a
    by_cases hb : (processArticle now sink st a).1.excCnt > 3
    · rw [if_pos hb]
      show (processArticle now sink st a).1.excCnt ≤ 4
      omega
    · rw [if_neg hb]
      by_cases hb2 :
          ((processArticle now sink st a).1.newsCnt : Int) ≥ maxNews
      · rw [if_pos hb2]
        show (processArticle now sink st a).1.excCnt ≤ 4
        omega
      · rw [if_neg hb2]
        exact ih (processArticle now sink st a).1 (by omega)

theorem runLoop_alerts_le_one (now maxNews : Int)
    (sink : Article → SendResult) (l : List Article) (st : RunState) :
    (runLoop now maxNews sink st l).alerts.length ≤ 1 := by
  induction l generalizing st with
  | nil => simp [runLoop]
  | cons a rest ih =>
    rw [runLoop_cons]
    simp only []
    by_cases hb : (processArticle now sink st a).1.excCnt > 3
    · rw [if_pos hb]
      simp
    · rw [if_neg hb]
      by_cases hb2 :
          ((processArticle now sink st a).1.newsCnt : Int) ≥ maxNews
      · rw [if_pos hb2]
        simp
      · rw [if_neg hb2]
        exact ih (processArticle now sink st a).1

theorem runLoop_alerts_iff (now maxNews : Int) (sink : Article → SendResult)
    (l : List Article) (st : RunState) (h : st.excCnt ≤ 3) :
    ((runLoop now maxNews sink st l).alerts ≠ [] ↔
      (runLoop now maxNews sink st l).state.excCnt > 3) := by
  induction l generalizing st with
  | nil =>
    simp only [runLoop]
    constructor
    · intro hfalse
      exact absurd rfl hfalse
    · intro hgt
      omega
  | cons a rest ih =>
    rw [runLoop_cons]
    simp only []
    by_cases hb : (processArticle now sink st a).1.excCnt > 3
    · rw [if_pos hb]
      simpa using hb
    · rw [if_neg hb]
      by_cases hb2 :
          ((processArticle now sink st a).1.newsCnt : Int) ≥ maxNews
      · rw [if_pos hb2]
        simpa using hb
      · rw [if_neg hb2]
        exact ih (processArticle now sink st a).1 (by omega)

theorem runLoop_alerts_msg (now maxNews : Int) (sink : Article → SendResult)
    (l : List Article) (st : RunState)
    (h : (runLoop now maxNews sink st l).alerts ≠ []) :
    (runLoop now maxNews sink st l).alerts =
      [alertText (runLoop now maxNews sink st l).state.excMsg] := by
  induction l generalizing st with
  | nil => simp [runLoop] at h
  | cons a rest ih =>
    rw [runLoop_cons] at h ⊢
    simp only [] at h ⊢
    by_cases hb : (processArticle now sink st a).1.excCnt > 3
    · rw [if_pos hb]
    · rw [if_neg hb] at h ⊢
      by_cases hb2 :
          ((processArticle now sink st a).1.newsCnt : Int) ≥ maxNews
      · rw [if_pos hb2] at h
        simp at h
      · rw [if_neg hb2] at h ⊢
        exact ih (processArticle now sink st a).1 h

theorem runLoop_split (now maxNews : Int) (sink : Article → SendResult)
    (l : List Article) (st : RunState) :
    ∃ pre, l = pre ++ (runLoop now maxNews sink st l).remaining ∧
      (runLoop now maxNews sink st l).delivered.Sublist pre := by
  induction l generalizing st with
  | nil => exact ⟨[], rfl, List.nil_sublist []⟩
  | cons a rest ih =>
    rw [runLoop_cons]
    simp only []
    have hhead : (processArticle now sink st a).2.toList.Sublist [a] := by
      cases hopt : (processArticle now sink st a).2 with
      | none => simp
      | some y =>
        obtain ⟨hya, -, -, -, -, -⟩ :=
          processArticle_delivered now sink st _ a y (by rw [← hopt])
        simp [hya]
    by_cases hb : (processArticle now sink st a).1.excCnt > 3
    · rw [if_pos hb]
      exact ⟨[a], rfl, hhead⟩
    · rw [if_neg hb]
      by_cases hb2 :
          ((processArticle now sink st a).1.newsCnt : Int) ≥ maxNews
      · rw [if_pos hb2]
        exact ⟨[a], rfl, hhead⟩
      · rw [if_neg hb2]
        obtain ⟨pre, hpre, hsub⟩ := ih (processArticle now sink st a).1
        refine ⟨a :: pre, by rw [List.cons_append, ← hpre], ?_⟩
        have h1 : (processArticle now sink st a).2.toList ++
            (runLoop now maxNews sink (processArticle now sink st a).1
              rest).delivered |>.Sublist ([a] ++ pre) :=
          List.Sublist.append hhead hsub
        simpa using h1

theorem processArticle_success (now : Int) (sink : Article → SendResult)
    (st : RunState) (a : Article)
    (h1 : storeHas st.store a.checksum = false)
    (h2 : now - a.date ≤ thirtyDays) (h3 : a.date ≤ now)
    (h4 : sink a = SendResult.ok) :
    processArticle now sink st a =
      ({ st with store := st.store ++ [(a.date, a.checksum)],
                 newsCnt := st.newsCnt + 1 }, some a) := by
  unfold processArticle
  rw [if_neg (by simp [h1]), if_neg (by omega), if_neg (by omega), h4]

theorem processArticle_format (now : Int) (sink : Article → SendResult)
    (st : RunState) (a : Article) (m : String)
    (h1 : storeHas st.store a.checksum = false)
    (h2 : now - a.date ≤ thirtyDays) (h3 : a.date ≤ now)
    (h4 : sink a = SendResult.failed m) (h5 : isFormatErr m = true) :
    processArticle now sink st a =
      ({ st with store := st.store ++ [(a.date, a.checksum)],
                 excMsg := m }, none) := by
  unfold processArticle
  rw [if_neg (by simp [h1]), if_neg (by omega), if_neg (by omega), h4]
  simp [h5]

theorem processArticle_genuine (now : Int) (sink : Article → SendResult)
    (st : RunState) (a : Article) (m : String)
    (h1 : storeHas st.store a.checksum = false)
    (h2 : now - a.date ≤ thirtyDays) (h3 : a.date ≤ now)
    (h4 : sink a = SendResult.failed m) (h5 : isFormatErr m = false) :
    processArticle now sink st a =
      ({ st with excCnt := st.excCnt + 1, excMsg := m }, none) := by
  unfold processArticle
  rw [if_neg (by simp [h1]), if_neg (by omega), if_neg (by omega), h4]
  simp [h5]

theorem processArticle_future (now : Int) (sink : Article → SendResult)
    (st : RunState) (a : Article)
    (h1 : storeHas st.store a.checksum = false)
    (h2 : now - a.date ≤ thirtyDays) (h3 : a.date > now) :
    processArticle now sink st a = (st, none) := by
  unfold processArticle
  rw [if_neg (by simp [h1]), if_neg (by omega), if_pos h3]

theorem runLoop_delivered_window (now maxNews : Int)
    (sink : Article → SendResult) (l : List Article) (st : RunState)
    (x : Article) (h : x ∈ (runLoop now maxNews sink st l).delivered) :
    x.date ≤ now ∧ now - x.date ≤ thirtyDays := by
  induction l generalizing st with
  | nil => simp [runLoop] at h
  | cons a rest ih =>
    rw [runLoop_cons] at h
    simp only [] at h
    have hhead : (processArticle now sink st a).2 = some x →
        x.date ≤ now ∧ now - x.date ≤ thirtyDays := by
      intro hsome
      obtain ⟨hxa, -, hold, hfut, -, -⟩ :=
        processArticle_delivered now sink st _ a x (by rw [← hsome])
      subst hxa
      exact ⟨hfut, hold⟩
    by_cases hb : (processArticle now sink st a).1.excCnt > 3
    · rw [if_pos hb] at h
      exact hhead (by simpa [Option.mem_toList, Option.mem_def] using h)
    · rw [if_neg hb] at h
      by_cases hb2 :
          ((processArticle now sink st a).1.newsCnt : Int) ≥ maxNews
      · rw [if_pos hb2] at h
        exact hhead (by simpa [Option.mem_toList, Option.mem_def] using h)
      · rw [if_neg hb2] at h
        rcases List.mem_append.mp h with hmem | hmem
        · exact hhead (by simpa [Option.mem_toList, Option.mem_def] using hmem)
        · exact ih _ hmem

/-! ## Claim theorems -/

/-- C1 (dedup idempotence): an article whose checksum already has a store
row is skipped with no delivery and no state change, and across two runs
of the pipeline on the same article sequence — the second starting from
the store the first left behind — any checksum is delivered at most once
in total, under any per-run bounds and any sink behaviors. -/
theorem dedup_idempotence :
    (∀ (now : Int) (sink : Article → SendResult) (st : RunState)
       (a : Article), storeHas st.store a.checksum = true →
       processArticle now sink st a = (st, none)) ∧
    (∀ (now1 now2 maxN1 maxN2 : Int) (sink1 sink2 : Article → SendResult)
       (store0 : List (Int × String)) (articles : List Article) (c : String),
       (runMain now1 maxN1 sink1 store0 articles).delivered.countP
           (fun x => x.checksum == c) +
         (runMain now2 maxN2 sink2
             (runMain now1 maxN1 sink1 store0 articles).state.store
             articles).delivered.countP (fun x => x.checksum == c) ≤ 1) := by
  constructor
  · intro now sink st a h
    exact processArticle_skip now sink st a h
  · intro now1 now2 maxN1 maxN2 sink1 sink2 store0 articles c
    simp only [runMain]
    by_cases h1 : (runLoop now1 maxN1 sink1 ⟨store0, 0, 0, ""⟩
        articles).delivered.countP (fun x => x.checksum == c) = 0
    · rw [h1]
      simpa using runLoop_count_le_one now2 maxN2 sink2 articles _ c
    · have hpos : 0 < (runLoop now1 maxN1 sink1 ⟨store0, 0, 0, ""⟩
          articles).delivered.countP (fun x => x.checksum == c) :=
        Nat.pos_of_ne_zero h1
      obtain ⟨x, hmem, hxc⟩ := List.countP_pos_iff.mp hpos
      have hxc' : x.checksum = c := by simpa using hxc
      have hstore := runLoop_delivered_store now1 maxN1 sink1 articles
        ⟨store0, 0, 0, ""⟩ x hmem
      rw [hxc'] at hstore
      have hz := runLoop_count_zero now2 maxN2 sink2 articles
        ⟨(runLoop now1 maxN1 sink1 ⟨store0, 0, 0, ""⟩ articles).state.store,
         0, 0, ""⟩ c hstore
      rw [hz]
      have := runLoop_count_le_one now1 maxN1 sink1 articles
        ⟨store0, 0, 0, ""⟩ c
      omega

/-- Witness for C1: a concrete already-recorded article is skipped with no
store change and no delivery. -/
theorem dedup_idempotence_witness :
    processArticle 0 (fun _ => SendResult.ok)
      ⟨[(0, "c0")], 0, 0, ""⟩ ⟨"t", 0, "a", "s", "l", "c0"⟩ =
      (⟨[(0, "c0")], 0, 0, ""⟩, none) :=
  dedup_idempotence.1 0 (fun _ => SendResult.ok)
    ⟨[(0, "c0")], 0, 0, ""⟩ ⟨"t", 0, "a", "s", "l", "c0"⟩ (by decide)

/-- C4 (non-retryable format failure): under the delivery guards, a sink
failure whose message carries the recognized `can't parse entities:` class
writes the `(date, checksum)` row anyway and leaves the error counter
untouched, while any other failure increments the counter and writes
nothing; and a checksum already in the store is never delivered by any
later run. -/
theorem format_error_nonretryable :
    (∀ (now : Int) (sink : Article → SendResult) (st : RunState)
       (a : Article) (m : String),
       storeHas st.store a.checksum = false →
       now - a.date ≤ thirtyDays → a.date ≤ now →
       sink a = SendResult.failed m →
       ((isFormatErr m = true →
         processArticle now sink st a =
           ({ st with store := st.store ++ [(a.date, a.checksum)],
                      excMsg := m }, none)) ∧
        (isFormatErr m = false →
         processArticle now sink st a =
           ({ st with excCnt := st.excCnt + 1, excMsg := m }, none)))) ∧
    (∀ (now maxNews : Int) (sink : Article → SendResult) (l : List Article)
       (st : RunState) (c : String), storeHas st.store c = true →
       (runLoop now maxNews sink st l).delivered.countP
         (fun x => x.checksum == c) = 0) := by
  constructor
  · intro now sink st a m h1 h2 h3 h4
    exact ⟨fun h5 => processArticle_format now sink st a m h1 h2 h3 h4 h5,
           fun h5 => processArticle_genuine now sink st a m h1 h2 h3 h4 h5⟩
  · intro now maxNews sink l st c h
    exact runLoop_count_zero now maxNews sink l st c h

/-- Witness for C4: a concrete format-class failure records the row and
keeps the counter at zero. -/
theorem format_error_nonretryable_witness :
    processArticle 0
      (fun _ => SendResult.failed "can't parse entities: oops")
      ⟨[], 0, 0, ""⟩ ⟨"t", 0, "a", "s", "l", "c0"⟩ =
      (⟨[(0, "c0")], 0, 0, "can't parse entities: oops"⟩, none) :=
  ((format_error_nonretryable.1 0
      (fun _ => SendResult.failed "can't parse entities: oops")
      ⟨[], 0, 0, ""⟩ ⟨"t", 0, "a", "s", "l", "c0"⟩
      "can't parse entities: oops"
      (by decide) (by decide) (by decide) rfl).1 (by decide))

/-- C5 (delivery time window): delivered articles always satisfy
`publishedAt ≤ now` and `now - publishedAt ≤ 30 days`; a future-dated
unseen article is skipped with no store write; concretely, a 31-day-old
article is not delivered even on an empty store, a 29-day-old one is, and
a one-hour-in-the-future article is skipped without a record but is
delivered by a run an hour later. -/
theorem delivery_time_window :
    (∀ (now maxNews : Int) (sink : Article → SendResult)
       (store : List (Int × String)) (articles : List Article) (x : Article),
       x ∈ (runMain now maxNews sink store articles).delivered →
       x.date ≤ now ∧ now - x.date ≤ thirtyDays) ∧
    (∀ (now : Int) (sink : Article → SendResult) (st : RunState)
       (a : Article), storeHas st.store a.checksum = false →
       now - a.date ≤ thirtyDays → a.date > now →
       processArticle now sink st a = (st, none)) ∧
    (runMain 0 1 (fun _ => SendResult.ok) []
      [⟨"t", -2678400, "a", "s", "l", "c31"⟩]).delivered = [] ∧
    (runMain 0 1 (fun _ => SendResult.ok) []
      [⟨"t", -2505600, "a", "s", "l", "c29"⟩]).delivered =
      [⟨"t", -2505600, "a", "s", "l", "c29"⟩] ∧
    (runMain 0 1 (fun _ => SendResult.ok) []
      [⟨"t", 3600, "a", "s", "l", "cf"⟩]).delivered = [] ∧
    (runMain 0 1 (fun _ => SendResult.ok) []
      [⟨"t", 3600, "a", "s", "l", "cf"⟩]).state.store = [] ∧
    (runMain 3600 1 (fun _ => SendResult.ok) []
      [⟨"t", 3600, "a", "s", "l", "cf"⟩]).delivered =
      [⟨"t", 3600, "a", "s", "l", "cf"⟩] := by
  refine ⟨?_, ?_, by decide, by decide, by decide, by decide, by decide⟩
  · intro now maxNews sink store articles x h
    simp only [runMain] at h
    exact runLoop_delivered_window now maxNews sink articles _ x h
  · intro now sink st a h1 h2 h3
    exact processArticle_future now sink st a h1 h2 h3

/-- Witness for C5: the future-date guard on a concrete article leaves the
state untouched. -/
theorem delivery_time_window_witness :
    processArticle 0 (fun _ => SendResult.ok) ⟨[], 0, 0, ""⟩
      ⟨"t", 3600, "a", "s", "l", "cf"⟩ = (⟨[], 0, 0, ""⟩, none) :=
  delivery_time_window.2.1 0 (fun _ => SendResult.ok) ⟨[], 0, 0, ""⟩
    ⟨"t", 3600, "a", "s", "l", "cf"⟩ (by decide) (by decide) (by decide)

/-- C10 (failure counter is monotone and never reset): one loop step never
decreases `exception_cnt`; a dedup skip, a successful send, or a
format-class failure leaves it unchanged; the counter never decreases over
a whole run; and any run that accumulates four genuine failures — whether
or not they are consecutive — ends with the administrative alert. -/
theorem failure_counter_monotone :
    (∀ (now : Int) (sink : Article → SendResult) (st : RunState)
       (a : Article), st.excCnt ≤ (processArticle now sink st a).1.excCnt) ∧
    (∀ (now : Int) (sink : Article → SendResult) (st : RunState)
       (a : Article), storeHas st.store a.checksum = true →
       (processArticle now sink st a).1.excCnt = st.excCnt) ∧
    (∀ (now : Int) (sink : Article → SendResult) (st : RunState)
       (a : Article), sink a = SendResult.ok →
       (processArticle now sink st a).1.excCnt = st.excCnt) ∧
    (∀ (now : Int) (sink : Article → SendResult) (st : RunState)
       (a : Article) (m : String), sink a = SendResult.failed m →
       isFormatErr m = true →
       (processArticle now sink st a).1.excCnt = st.excCnt) ∧
    (∀ (now maxNews : Int) (sink : Article → SendResult) (l : List Article)
       (st : RunState),
       st.excCnt ≤ (runLoop now maxNews sink st l).state.excCnt) ∧
    (∀ (now maxNews : Int) (sink : Article → SendResult)
       (store : List (Int × String)) (articles : List Article),
       (runMain now maxNews sink store articles).state.excCnt ≥ 4 →
       (runMain now maxNews sink store articles).alerts ≠ []) := by
  refine ⟨?_, ?_, ?_, ?_, ?_, ?_⟩
  · intro now sink st a
    exact processArticle_excCnt_mono now sink st a
  · intro now sink st a h
    rw [processArticle_skip now sink st a h]
  · intro now sink st a h
    unfold processArticle
    rw [h]
    repeat' split
    all_goals simp_all
  · intro now sink st a m h hm
    unfold processArticle
    rw [h]
    simp only [hm, if_true]
    repeat' split
    all_goals rfl
  · intro now maxNews sink l st
    exact runLoop_excCnt_mono now maxNews sink l st
  · intro now maxNews sink store articles h
    simp only [runMain] at h ⊢
    exact (runLoop_alerts_iff now maxNews sink articles
      ⟨store, 0, 0, ""⟩ (by simp)).mpr (by omega)

/-- Witness for C10: a concrete run whose four genuine failures are
separated by successful deliveries still ends with the alert. -/
theorem failure_counter_monotone_witness :
    (runMain 0 10
      (fun a => if a.checksum == "f1" || a.checksum == "f2" ||
                   a.checksum == "f3" || a.checksum == "f4"
                then SendResult.failed "boom" else SendResult.ok)
      []
      [⟨"t", 0, "a", "s", "l", "f1"⟩, ⟨"t", 0, "a", "s", "l", "s1"⟩,
       ⟨"t", 0, "a", "s", "l", "f2"⟩, ⟨"t", 0, "a", "s", "l", "s2"⟩,
       ⟨"t", 0, "a", "s", "l", "f3"⟩, ⟨"t", 0, "a", "s", "l", "s3"⟩,
       ⟨"t", 0, "a", "s", "l", "f4"⟩, ⟨"t", 0, "a", "s", "l", "s4"⟩]).alerts
      ≠ [] :=
  failure_counter_monotone.2.2.2.2.2 0 10
    (fun a => if a.checksum == "f1" || a.checksum == "f2" ||
                 a.checksum == "f3" || a.checksum == "f4"
              then SendResult.failed "boom" else SendResult.ok)
    []
    [⟨"t", 0, "a", "s", "l", "f1"⟩, ⟨"t", 0, "a", "s", "l", "s1"⟩,
     ⟨"t", 0, "a", "s", "l", "f2"⟩, ⟨"t", 0, "a", "s", "l", "s2"⟩,
     ⟨"t", 0, "a", "s", "l", "f3"⟩, ⟨"t", 0, "a", "s", "l", "s3"⟩,
     ⟨"t", 0, "a", "s", "l", "f4"⟩, ⟨"t", 0, "a", "s", "l", "s4"⟩]
    (by decide)

/-- Counterexample to C3 as stated: with the per-run bound `N = 0` the
loop checks `news_cnt >= max_news` only at the end of an iteration, so the
first valid article is still delivered and the delivered count 1 exceeds
`N = 0`. -/
theorem error_budget_counterexample :
    ((runMain 0 0 (fun _ => SendResult.ok) []
        [⟨"t", 0, "a", "s", "l", "c0"⟩]).delivered.length : Int) > 0 := by
  decide

/-- C3 amended (error budget, requiring `1 ≤ N` for the delivery bound):
with `1 ≤ N` a run delivers at most `N` articles; the genuine-failure
counter never passes 4; at most one administrative alert is sent, exactly
when the counter reached 4, and it carries the last recorded error
message; and the run processes a prefix of the article sequence, with
everything delivered coming from that prefix (articles after a break are
untouched). -/
theorem error_budget (now maxNews : Int) (sink : Article → SendResult)
    (store : List (Int × String)) (articles : List Article) :
    (1 ≤ maxNews →
      ((runMain now maxNews sink store articles).delivered.length : Int) ≤
        maxNews) ∧
    (runMain now maxNews sink store articles).state.excCnt ≤ 4 ∧
    (runMain now maxNews sink store articles).alerts.length ≤ 1 ∧
    ((runMain now maxNews sink store articles).alerts ≠ [] ↔
      (runMain now maxNews sink store articles).state.excCnt = 4) ∧
    ((runMain now maxNews sink store articles).alerts ≠ [] →
      (runMain now maxNews sink store articles).alerts =
        [alertText (runMain now maxNews sink store articles).state.excMsg]) ∧
    (∃ pre, articles = pre ++ (runMain now maxNews sink store articles).remaining ∧
      (runMain now maxNews sink store articles).delivered.Sublist pre) := by
  simp only [runMain]
  have hcnt := runLoop_newsCnt_eq now maxNews sink articles ⟨store, 0, 0, ""⟩
  have hle4 := runLoop_excCnt_le_four now maxNews sink articles
    ⟨store, 0, 0, ""⟩ (by simp)
  have hiff := runLoop_alerts_iff now maxNews sink articles
    ⟨store, 0, 0, ""⟩ (by simp)
  refine ⟨?_, hle4, runLoop_alerts_le_one now maxNews sink articles _, ?_, ?_, ?_⟩
  · intro hN
    have := runLoop_newsCnt_le now maxNews sink articles
      ⟨store, 0, 0, ""⟩ (by simp; omega)
    simp only [] at hcnt
    omega
  · constructor
    · intro h
      have := hiff.mp h
      omega
    · intro h
      exact hiff.mpr (by omega)
  · intro h
    exact runLoop_alerts_msg now maxNews sink articles _ h
  · exact runLoop_split now maxNews sink articles _

/-- Witness for C3 (amended): with the default bound `N = 1` and two valid
articles, the concrete run delivers at most one. -/
theorem error_budget_witness :
    ((runMain 0 1 (fun _ => SendResult.ok) []
        [⟨"t", 0, "a", "s", "l", "c1"⟩,
         ⟨"t", 0, "a", "s", "l", "c2"⟩]).delivered.length : Int) ≤ 1 :=
  (error_budget 0 1 (fun _ => SendResult.ok) []
    [⟨"t", 0, "a", "s", "l", "c1"⟩, ⟨"t", 0, "a", "s", "l", "c2"⟩]).1
    (by norm_num)

theorem stripChars_length_le_dropWhile (l : List Char) :
    (stripChars l).length ≤ (l.dropWhile pyIsSpace).length := by
  unfold stripChars
  simp only [List.length_reverse]
  simpa using (List.dropWhile_sublist (l := (l.dropWhile pyIsSpace).reverse) pyIsSpace).length_le

theorem stripChars_append_slash (l : List Char) :
    stripChars (l ++ ['/']) = l.dropWhile pyIsSpace ++ ['/'] := by
  unfold stripChars
  have h1 : (l ++ ['/']).dropWhile pyIsSpace =
      l.dropWhile pyIsSpace ++ ['/'] := by
    rw [List.dropWhile_append]
    split
    · rename_i he
      simp only [List.isEmpty_iff] at he
      rw [he]
      simp [List.dropWhile]
      decide
    · rfl
  rw [h1, List.reverse_append]
  simp only [List.reverse_cons, List.reverse_nil, List.nil_append,
    List.singleton_append]
  rw [List.dropWhile_cons]
  simp only [show pyIsSpace '/' = false by decide, Bool.false_eq_true,
    if_false, List.reverse_cons, List.reverse_reverse]

theorem normalize_slash_ne (L : String) :
    pyLower (pyStrip (L ++ "/")) ≠ pyLower (pyStrip L) := by
  have hd : (L ++ "/").data = L.data ++ ['/'] := by
    simp [String.data_append]
  have hlen1 : (pyLower (pyStrip (L ++ "/"))).data.length =
      (L.data.dropWhile pyIsSpace).length + 1 := by
    simp [pyLower, pyStrip, hd, stripChars_append_slash]
  have hlen2 : (pyLower (pyStrip L)).data.length ≤
      (L.data.dropWhile pyIsSpace).length := by
    simpa [pyLower, pyStrip] using stripChars_length_le_dropWhile L.data
  intro h
  rw [h] at hlen1
  omega

set_option maxRecDepth 10000 in
/-- C2 (checksum determinism and normalization): the article checksum is
the MD5 hex digest of the stripped, lower-cased link; it is a pure
function of that normalized form, so links differing only in edge
whitespace or letter case collide; appending a trailing slash always
changes the normalized form, and on the spec's concrete example it
changes the checksum itself. -/
theorem checksum_normalization :
    (∀ (t : String) (d : Int) (au s L : String),
       (mkNews t d au s L).checksum = md5Hex (pyLower (pyStrip L))) ∧
    (∀ L, linkChecksum L = md5Hex (pyLower (pyStrip L))) ∧
    (∀ L L', pyLower (pyStrip L) = pyLower (pyStrip L') →
       linkChecksum L = linkChecksum L') ∧
    (∀ L, pyLower (pyStrip (L ++ "/")) ≠ pyLower (pyStrip L)) ∧
    linkChecksum "  HTTP://Example.COM/path " =
      linkChecksum "http://example.com/path" ∧
    linkChecksum "http://example.com/a/" ≠ linkChecksum "http://example.com/a" := by
  refine ⟨fun t d au s L => rfl, fun L => rfl, ?_, normalize_slash_ne, ?_, ?_⟩
  · intro L L' h
    unfold linkChecksum
    exact congrArg md5Hex h
  · unfold linkChecksum
    exact congrArg md5Hex (by decide)
  · decide

/-- Witness for C2: a concrete whitespace/case-folded pair of links
receives one and the same checksum. -/
theorem checksum_normalization_witness :
    linkChecksum " HTTP://A.B " = linkChecksum "http://a.b" :=
  checksum_normalization.2.2.1 " HTTP://A.B " "http://a.b" (by decide)

theorem dateGe_trans : ∀ a b c : Article,
    dateGe a b = true → dateGe b c = true → dateGe a c = true := by
  intro a b c h1 h2
  simp only [dateGe, decide_eq_true_eq] at *
  omega

theorem dateGe_total : ∀ a b : Article, (dateGe a b || dateGe b a) = true := by
  intro a b
  simp only [dateGe, Bool.or_eq_true, decide_eq_true_eq]
  omega

theorem mergeSort_rot (a b c : Article) (h1 : dateGe c a = false)
    (h2 : dateGe a b = true) (h3 : dateGe c b = false) :
    [c, a, b].mergeSort dateGe = [a, b, c] := by
  rw [List.mergeSort]
  simp [List.mergeSort, List.merge, h1, h2, h3]

set_option maxRecDepth 100000 in
/-- C6 (aggregator output ordering): `parse_news` output is pairwise
date-descending (also stated positionally); articles of any fixed date
keep exactly their source-then-entry order (stability); and the three
concrete articles with dates 3 > 2 > 1 come back as D1, D2, D3 under two
different source fetch orders. -/
theorem aggregator_sort_order :
    (∀ (pd : String → Option Int) (feeds : List (List Entry)),
       (parse_news pd feeds).Pairwise (fun a b => b.date ≤ a.date)) ∧
    (∀ (pd : String → Option Int) (feeds : List (List Entry))
       (i j : Fin (parse_news pd feeds).length), i < j →
       ((parse_news pd feeds).get j).date ≤
         ((parse_news pd feeds).get i).date) ∧
    (∀ (pd : String → Option Int) (feeds : List (List Entry)) (d : Int),
       (parse_news pd feeds).filter (fun a => a.date == d) =
       ((feeds.map (fun f => f.filterMap (processEntry pd))).flatten).filter
         (fun a => a.date == d)) ∧
    parse_news pdFix [[entryD1], [entryD2], [entryD3]] =
      [artD1, artD2, artD3] ∧
    parse_news pdFix [[entryD3], [entryD1], [entryD2]] =
      [artD1, artD2, artD3] ∧
    artD1.date = 3 ∧ artD2.date = 2 ∧ artD3.date = 1 := by
  have hpair : ∀ (pd : String → Option Int) (feeds : List (List Entry)),
      (parse_news pd feeds).Pairwise (fun a b => b.date ≤ a.date) := by
    intro pd feeds
    have h := List.sorted_mergeSort dateGe_trans dateGe_total
      ((feeds.map (fun f => f.filterMap (processEntry pd))).flatten)
    exact h.imp (by intro a b hab; simpa [dateGe] using hab)
  refine ⟨hpair, ?_, ?_, ?_, ?_, by decide, by decide, by decide⟩
  · intro pd feeds i j hij
    exact (List.pairwise_iff_get.mp (hpair pd feeds)) i j hij
  · intro pd feeds d
    have hc : (((feeds.map (fun f => f.filterMap (processEntry pd))).flatten).filter
        (fun a => a.date == d)).Pairwise (fun a b => dateGe a b = true) := by
      apply List.pairwise_of_forall_mem_list
      intro x hx y hy
      have hxd : x.date = d := by simpa using (List.mem_filter.mp hx).2
      have hyd : y.date = d := by simpa using (List.mem_filter.mp hy).2
      simp [dateGe, hxd, hyd]
    have hsub := List.sublist_mergeSort dateGe_trans dateGe_total hc
      (List.filter_sublist
        ((feeds.map (fun f => f.filterMap (processEntry pd))).flatten))
    have hsub2 := List.Sublist.filter (fun a => a.date == d) hsub
    rw [List.filter_eq_self.mpr
      (fun a ha => (List.mem_filter.mp ha).2)] at hsub2
    have hperm := (List.mergeSort_perm
      ((feeds.map (fun f => f.filterMap (processEntry pd))).flatten)
      dateGe).filter (fun a => a.date == d)
    exact (hsub2.eq_of_length hperm.length_eq.symm).symm
  · calc parse_news pdFix [[entryD1], [entryD2], [entryD3]]
        = ([[entryD1], [entryD2], [entryD3]].map
            (fun f => f.filterMap (processEntry pdFix))).flatten.mergeSort
            dateGe := rfl
      _ = [artD1, artD2, artD3].mergeSort dateGe := by
            rw [show ([[entryD1], [entryD2], [entryD3]].map
              (fun f => f.filterMap (processEntry pdFix))).flatten =
              [artD1, artD2, artD3] from by decide]
      _ = [artD1, artD2, artD3] := List.mergeSort_of_sorted (by decide)
  · calc parse_news pdFix [[entryD3], [entryD1], [entryD2]]
        = ([[entryD3], [entryD1], [entryD2]].map
            (fun f => f.filterMap (processEntry pdFix))).flatten.mergeSort
            dateGe := rfl
      _ = [artD3, artD1, artD2].mergeSort dateGe := by
            rw [show ([[entryD3], [entryD1], [entryD2]].map
              (fun f => f.filterMap (processEntry pdFix))).flatten =
              [artD3, artD1, artD2] from by decide]
      _ = [artD1, artD2, artD3] :=
            mergeSort_rot artD1 artD2 artD3 (by decide) (by decide) (by decide)

set_option maxRecDepth 100000 in
/-- Witness for C6: in the concrete aggregated output, position 1 carries
an article no newer than position 0. -/
theorem aggregator_sort_order_witness :
    ((parse_news pdFix [[entryD1], [entryD2], [entryD3]]).get
        ⟨1, by rw [aggregator_sort_order.2.2.2.1]; decide⟩).date ≤
      ((parse_news pdFix [[entryD1], [entryD2], [entryD3]]).get
        ⟨0, by rw [aggregator_sort_order.2.2.2.1]; decide⟩).date :=
  aggregator_sort_order.2.1 pdFix [[entryD1], [entryD2], [entryD3]]
    ⟨0, by rw [aggregator_sort_order.2.2.2.1]; decide⟩
    ⟨1, by rw [aggregator_sort_order.2.2.2.1]; decide⟩ (by decide)

/-- C7 (field-candidate fallback): the entry loop tries the tuples
(`description`, `dc:creator`, `pubDate`), (`summary`, `author`,
`published`), (`content`, `author`, `published`) in that order, accepts
the first that builds an article without trying later ones, and silently
drops the entry (contributing nothing to `parse_news`) when all three
fail; an entry exposing only `summary`/`author`/`published` is built by
the second tuple. -/
theorem field_candidate_fallback :
    (∀ (pd : String → Option Int) (e : Entry) (a : Article),
       create_article pd e "description" "dc:creator" "pubDate" = some a →
       processEntry pd e = some a) ∧
    (∀ (pd : String → Option Int) (e : Entry) (a : Article),
       create_article pd e "description" "dc:creator" "pubDate" = none →
       create_article pd e "summary" "author" "published" = some a →
       processEntry pd e = some a) ∧
    (∀ (pd : String → Option Int) (e : Entry) (a : Article),
       create_article pd e "description" "dc:creator" "pubDate" = none →
       create_article pd e "summary" "author" "published" = none →
       create_article pd e "content" "author" "published" = some a →
       processEntry pd e = some a) ∧
    (∀ (pd : String → Option Int) (e : Entry),
       create_article pd e "description" "dc:creator" "pubDate" = none →
       create_article pd e "summary" "author" "published" = none →
       create_article pd e "content" "author" "published" = none →
       processEntry pd e = none) ∧
    (∀ (pd : String → Option Int) (e : Entry),
       processEntry pd e = none → parse_news pd [[e]] = []) ∧
    create_article pdFix entryFallback "description" "dc:creator" "pubDate" =
      none ∧
    (processEntry pdFix entryFallback).map
      (fun a => (a.title, a.date, a.author)) =
      some ("Fallback title", 3, "Alice") := by
  refine ⟨?_, ?_, ?_, ?_, ?_, by decide, by decide⟩
  · intro pd e a h1
    unfold processEntry
    rw [h1]
  · intro pd e a h1 h2
    unfold processEntry
    rw [h1, h2]
  · intro pd e a h1 h2 h3
    unfold processEntry
    rw [h1, h2, h3]
  · intro pd e h1 h2 h3
    unfold processEntry
    rw [h1, h2, h3]
  · intro pd e h
    simp [parse_news, h]

/-- Witness for C7: an entry with no fields at all fails every tuple and
contributes nothing to the aggregated list. -/
theorem field_candidate_fallback_witness :
    parse_news pdFix [[(⟨[]⟩ : Entry)]] = [] :=
  field_candidate_fallback.2.2.2.2.1 pdFix ⟨[]⟩ (by decide)

/-- Counterexample to C8 as stated: `entryNoTitle` has extractable
`description` content and a parseable `published` date, yet carries no
`title` key; `entry["title"]` raises `KeyError` inside every candidate
tuple and the whole entry is dropped, so a missing title does reject the
entry. -/
theorem title_sentinel_counterexample :
    extract_feed_content entryNoTitle "description" ≠ none ∧
    pyOr (entryNoTitle.get? "pubDate")
      (pyOr (entryNoTitle.get? "published")
        (entryNoTitle.get? "updated")) = some "D1" ∧
    pdFix "D1" = some 3 ∧
    processEntry pdFix entryNoTitle = none :=
  ⟨by decide, by decide, by decide, by decide⟩

/-- C8 amended (title sentinel for present-but-short titles): when the
entry has a link, extractable content, a resolvable non-empty date string
that parses, and a `title` key whose value has at most 2 characters, an
article is still constructed and its title is the sentinel `No title`;
an absent `title` key, by contrast, drops the entry (see the
counterexample). -/
theorem title_sentinel (pd : String → Option Int) (e : Entry)
    (ck ak dk link content t ds : String) (dv : Int)
    (hl : e.get? "link" = some link)
    (hc : extract_feed_content e ck = some content)
    (ht : e.get? "title" = some t) (hlen : t.data.length ≤ 2)
    (hd : pyOr (e.get? dk) (pyOr (e.get? "published") (e.get? "updated")) =
      some ds)
    (hds : ds.data ≠ []) (hpd : pd ds = some dv) :
    ∃ a, create_article pd e ck ak dk = some a ∧ a.title = "No title" := by
  unfold create_article
  simp only [hl, hc, ht, hd, hpd]
  rw [if_neg (show ¬t.data.length > 2 from by omega)]
  rw [show (ds.data == []) = false from by simpa using hds]
  simp only [Bool.false_eq_true, if_false]
  exact ⟨_, rfl, rfl⟩

/-- Witness for C8 (amended): the concrete two-character title `ab` is
replaced by the sentinel and the article is still built. -/
theorem title_sentinel_witness :
    ∃ a, create_article pdFix entryShortTitle "description" "dc:creator"
        "pubDate" = some a ∧ a.title = "No title" :=
  title_sentinel pdFix entryShortTitle "description" "dc:creator" "pubDate"
    "http://c.example/s" "Content long enough to pass the ten char filter"
    "ab" "D1" 3 (by decide) (by decide) (by decide) (by decide) (by decide)
    (by decide) (by decide)

theorem subScan_length_le (m : List Char → Option Nat) :
    ∀ (fuel : Nat) (l : List Char), (subScan m fuel l).length ≤ l.length := by
  intro fuel
  induction fuel with
  | zero => intro l; exact Nat.le_refl _
  | succ f ih =>
    intro l
    cases l with
    | nil => exact Nat.le_refl _
    | cons c cs =>
      simp only [subScan]
      cases hm : m (c :: cs) with
      | none =>
        simpa using ih cs
      | some n =>
        calc (subScan m f ((c :: cs).drop n)).length
            ≤ ((c :: cs).drop n).length := ih _
          _ ≤ (c :: cs).length := by
              simp only [List.length_drop]
              omega

theorem stripChars_length_le (l : List Char) :
    (stripChars l).length ≤ l.length :=
  le_trans (stripChars_length_le_dropWhile l)
    (List.dropWhile_sublist pyIsSpace).length_le

theorem stripChars_subset (l : List Char) : stripChars l ⊆ l := by
  intro x hx
  unfold stripChars at hx
  rw [List.mem_reverse] at hx
  have h1 := (List.dropWhile_sublist pyIsSpace).subset hx
  rw [List.mem_reverse] at h1
  exact (List.dropWhile_sublist pyIsSpace).subset h1

theorem replaceDbl_cons_ne (c d : Char) (rest : List Char)
    (h : ¬(c = ' ' ∧ d = ' ')) :
    replaceDbl (c :: d :: rest) = c :: replaceDbl (d :: rest) := by
  unfold replaceDbl
  split
  · rename_i tail heq
    injection heq with h1 h2
    injection h2 with h2 h3
    exact absurd ⟨h1, h2⟩ h
  · rename_i ch tail hside heq
    injection heq with h1 h2
    subst h1
    subst h2
    rw [replaceDbl.eq_def]
  · rename_i heq
    exact absurd heq (by simp)

theorem hasDbl_cons_ne (c d : Char) (rest : List Char)
    (h : ¬(c = ' ' ∧ d = ' ')) :
    hasDbl (c :: d :: rest) = hasDbl (d :: rest) := by
  unfold hasDbl
  split
  · rename_i tail heq
    injection heq with h1 h2
    injection h2 with h2 h3
    exact absurd ⟨h1, h2⟩ h
  · rename_i ch tail hside heq
    injection heq with h1 h2
    subst h2
    rw [hasDbl.eq_def]
  · rename_i heq
    exact absurd heq (by simp)

theorem replaceDbl_single (c : Char) : replaceDbl [c] = [c] := by
  unfold replaceDbl
  split
  · rename_i tail heq
    injection heq with h1 h2
    exact absurd h2 (by simp)
  · rename_i ch tail hside heq
    injection heq with h1 h2
    subst h1
    subst h2
    rfl
  · rename_i heq
    exact absurd heq (by simp)

theorem hasDbl_single (c : Char) : hasDbl [c] = false := by
  unfold hasDbl
  split
  · rename_i tail heq
    injection heq with h1 h2
    exact absurd h2 (by simp)
  · rename_i ch tail hside heq
    injection heq with h1 h2
    subst h2
    rfl
  · rename_i heq
    exact absurd heq (by simp)

theorem replaceDbl_sublist : ∀ (n : Nat) (l : List Char), l.length ≤ n →
    (replaceDbl l).Sublist l := by
  intro n
  induction n with
  | zero =>
    intro l h
    have hl : l = [] := List.eq_nil_of_length_eq_zero (Nat.le_zero.mp h)
    subst hl
    simp [replaceDbl]
  | succ n ih =>
    intro l h
    match l with
    | [] => simp [replaceDbl]
    | [c] =>
      rw [replaceDbl_single c]
    | c :: d :: rest =>
      by_cases hcd : c = ' ' ∧ d = ' '
      · obtain ⟨rfl, rfl⟩ := hcd
        show (' ' :: replaceDbl rest).Sublist (' ' :: ' ' :: rest)
        simp only [List.length_cons] at h
        exact List.Sublist.cons₂ _ (List.Sublist.cons _ (ih rest (by omega)))
      · rw [replaceDbl_cons_ne c d rest hcd]
        simp only [List.length_cons] at h
        exact List.Sublist.cons₂ _ (ih (d :: rest) (by simp; omega))

theorem replaceDbl_length_lt : ∀ (n : Nat) (l : List Char), l.length ≤ n →
    hasDbl l = true → (replaceDbl l).length < l.length := by
  intro n
  induction n with
  | zero =>
    intro l h hd
    have hl : l = [] := List.eq_nil_of_length_eq_zero (Nat.le_zero.mp h)
    subst hl
    simp [hasDbl] at hd
  | succ n ih =>
    intro l h hd
    match l with
    | [] => simp [hasDbl] at hd
    | [c] =>
      rw [hasDbl_single c] at hd
      exact absurd hd (by simp)
    | c :: d :: rest =>
      by_cases hcd : c = ' ' ∧ d = ' '
      · obtain ⟨rfl, rfl⟩ := hcd
        show (' ' :: replaceDbl rest).length < (' ' :: ' ' :: rest).length
        have hle := (replaceDbl_sublist rest.length rest
          (Nat.le_refl _)).length_le
        simp only [List.length_cons]
        omega
      · rw [replaceDbl_cons_ne c d rest hcd]
        rw [hasDbl_cons_ne c d rest hcd] at hd
        simp only [List.length_cons] at h
        have := ih (d :: rest) (by simp; omega) hd
        simp only [List.length_cons] at this ⊢
        omega

theorem collapseFuel_noDbl : ∀ (fuel : Nat) (l : List Char),
    l.length ≤ fuel → hasDbl (collapseFuel fuel l) = false := by
  intro fuel
  induction fuel with
  | zero =>
    intro l h
    have hl : l = [] := List.eq_nil_of_length_eq_zero (Nat.le_zero.mp h)
    subst hl
    rfl
  | succ f ih =>
    intro l h
    simp only [collapseFuel]
    by_cases hd : hasDbl l = true
    · rw [if_pos hd]
      have hlt := replaceDbl_length_lt l.length l (Nat.le_refl _) hd
      exact ih (replaceDbl l) (by omega)
    · rw [if_neg hd]
      simpa using hd

theorem collapseFuel_sublist : ∀ (fuel : Nat) (l : List Char),
    (collapseFuel fuel l).Sublist l := by
  intro fuel
  induction fuel with
  | zero => intro l; exact List.Sublist.refl _
  | succ f ih =>
    intro l
    simp only [collapseFuel]
    by_cases hd : hasDbl l = true
    · rw [if_pos hd]
      exact (ih (replaceDbl l)).trans
        (replaceDbl_sublist l.length l (Nat.le_refl _))
    · rw [if_neg hd]

theorem collapseSpaces_noDbl (l : List Char) :
    hasDbl (collapseSpaces l) = false :=
  collapseFuel_noDbl l.length l (Nat.le_refl _)

theorem collapseSpaces_sublist (l : List Char) :
    (collapseSpaces l).Sublist l :=
  collapseFuel_sublist l.length l

theorem summary_shape (t : String) (d : Int) (au s L : String) :
    (mkNews t d au s L).summary.data =
      (if (if s.data.length > 10 then removeReadMore (stripChars s.data)
           else s.data).length > 300
       then (collapseSpaces (replaceNl (stripChars
              (if s.data.length > 10 then removeReadMore (stripChars s.data)
               else s.data)))).take 300 ++ " ...".data
       else collapseSpaces (replaceNl (stripChars
              (if s.data.length > 10 then removeReadMore (stripChars s.data)
               else s.data)))) := rfl

theorem pipe_no_nl (n : List Char) :
    '\n' ∉ (if n.length > 300
      then (collapseSpaces (replaceNl (stripChars n))).take 300 ++ " ...".data
      else collapseSpaces (replaceNl (stripChars n))) := by
  have hbase : '\n' ∉ collapseSpaces (replaceNl (stripChars n)) := by
    intro hmem
    have h1 := (collapseSpaces_sublist _).subset hmem
    simp only [replaceNl, List.mem_map] at h1
    obtain ⟨a, -, ha⟩ := h1
    split at ha <;> simp_all
  split
  · intro hmem
    rcases List.mem_append.mp hmem with hm | hm
    · exact hbase (List.take_subset _ _ hm)
    · exact absurd hm (by decide)
  · exact hbase

theorem pipe_len_le (n : List Char) :
    (if n.length > 300
      then (collapseSpaces (replaceNl (stripChars n))).take 300 ++ " ...".data
      else collapseSpaces (replaceNl (stripChars n))).length ≤ 304 := by
  have hc : (collapseSpaces (replaceNl (stripChars n))).length ≤ n.length :=
    calc (collapseSpaces (replaceNl (stripChars n))).length
        ≤ (replaceNl (stripChars n)).length :=
          (collapseSpaces_sublist _).length_le
      _ = (stripChars n).length := by simp [replaceNl]
      _ ≤ n.length := stripChars_length_le n
  split
  · simp only [List.length_append, List.length_take, List.length_cons,
      List.length_nil]
    omega
  · rename_i hgt
    omega

theorem pipe_short (n : List Char) (h : n.length ≤ 300) :
    (if n.length > 300
      then (collapseSpaces (replaceNl (stripChars n))).take 300 ++ " ...".data
      else collapseSpaces (replaceNl (stripChars n))) =
      collapseSpaces (replaceNl (stripChars n)) ∧
    hasDbl (collapseSpaces (replaceNl (stripChars n))) = false ∧
    (collapseSpaces (replaceNl (stripChars n))).length ≤ 300 := by
  refine ⟨by rw [if_neg (by omega)], collapseSpaces_noDbl _, ?_⟩
  calc (collapseSpaces (replaceNl (stripChars n))).length
      ≤ (replaceNl (stripChars n)).length := (collapseSpaces_sublist _).length_le
    _ = (stripChars n).length := by simp [replaceNl]
    _ ≤ n.length := stripChars_length_le n
    _ ≤ 300 := h

theorem pipe_marker (n : List Char) (h : n.length > 300) :
    ∃ u, (if n.length > 300
      then (collapseSpaces (replaceNl (stripChars n))).take 300 ++ " ...".data
      else collapseSpaces (replaceNl (stripChars n))) = u ++ " ...".data ∧
      u.length ≤ 300 := by
  rw [if_pos h]
  exact ⟨_, rfl, by simp [List.length_take]⟩

set_option maxRecDepth 100000 in
/-- Counterexample to C9 as stated: the constructed article from
`entryTagSummary` has summary `< a b > plus more content here yes`, which
still contains HTML-tag markup — its own cleaner `remove_html` would strip
`< a b >` — because the tag was split by a newline when `remove_html` ran
(whose `.` does not match newlines) and the newline was replaced by a
space only afterwards, inside the summary step. -/
theorem summary_normalization_counterexample :
    (processEntry pdFix entryTagSummary).map (fun a => a.summary) =
      some "< a b > plus more content here yes" ∧
    remove_html "< a b > plus more content here yes" ≠
      "< a b > plus more content here yes" :=
  ⟨by decide, by decide⟩

/-- C9 amended (summary normalization): HTML tags/entities and URL-shaped
substrings are removed from the raw field value at extraction time (the
extracted content is exactly `remove_links (remove_html raw)`), and the
summary step then strips `read more`, replaces newlines by spaces,
collapses runs of blanks and cuts at 300 characters; the final summary
contains no newline, is at most 304 characters long, and — whenever no
truncation occurred (in particular for inputs of at most 300 characters)
— has no double spaces and at most 300 characters; when the
post-read-more text exceeds 300 characters the summary is a cut of at
most 300 characters plus the ` ...` marker.  The final summary may
nevertheless again contain tag- or URL-shaped substrings, as the
counterexample shows. -/
theorem summary_normalization :
    (∀ (e : Entry) (k c : String), extract_feed_content e k = some c →
       ∃ raw, e.get? k = some raw ∧ c = remove_links (remove_html raw)) ∧
    (∀ (t : String) (d : Int) (au s L : String),
       '\n' ∉ (mkNews t d au s L).summary.data) ∧
    (∀ (t : String) (d : Int) (au s L : String),
       (mkNews t d au s L).summary.data.length ≤ 304) ∧
    (∀ (t : String) (d : Int) (au s L : String), s.data.length ≤ 300 →
       hasDbl (mkNews t d au s L).summary.data = false ∧
       (mkNews t d au s L).summary.data.length ≤ 300) ∧
    (∀ (t : String) (d : Int) (au s L : String),
       (if s.data.length > 10 then removeReadMore (stripChars s.data)
        else s.data).length > 300 →
       ∃ u, (mkNews t d au s L).summary.data = u ++ " ...".data ∧
         u.length ≤ 300) := by
  refine ⟨?_, ?_, ?_, ?_, ?_⟩
  · intro e k c h
    unfold extract_feed_content at h
    cases hk : e.get? k with
    | none => rw [hk] at h; exact absurd h (by simp)
    | some raw =>
      rw [hk] at h
      simp only [] at h
      by_cases h1 : (raw.data != []) = true
      · rw [if_pos h1] at h
        by_cases h2 : (remove_links (remove_html raw)).data.length > 10
        · rw [if_pos h2] at h
          exact ⟨raw, rfl, (Option.some.inj h).symm⟩
        · rw [if_neg h2] at h
          exact absurd h (by simp)
      · rw [if_neg h1] at h
        exact absurd h (by simp)
  · intro t d au s L
    rw [summary_shape]
    exact pipe_no_nl _
  · intro t d au s L
    rw [summary_shape]
    exact pipe_len_le _
  · intro t d au s L hs
    have hn : (if s.data.length > 10 then removeReadMore (stripChars s.data)
        else s.data).length ≤ 300 := by
      split
      · calc (removeReadMore (stripChars s.data)).length
            ≤ (stripChars s.data).length := subScan_length_le _ _ _
          _ ≤ s.data.length := stripChars_length_le _
          _ ≤ 300 := hs
      · exact hs
    obtain ⟨heq, hdbl, hlen⟩ := pipe_short _ hn
    rw [summary_shape, heq]
    exact ⟨hdbl, hlen⟩
  · intro t d au s L hgt
    rw [summary_shape]
    exact pipe_marker _ hgt

/-- Witness for C9 (amended): the concrete extracted content of `entryD1`
is literally the HTML- and URL-cleaned raw field. -/
theorem summary_normalization_witness :
    ∃ raw, entryD1.get? "description" = some raw ∧
      "Content one is long enough to pass the filter" =
        remove_links (remove_html raw) :=
  summary_normalization.1 entryD1 "description"
    "Content one is long enough to pass the filter" (by decide)
